import Mathlib

/-
  Verification development for `md_server.py`, a single-file HTTP server that
  lists, renders and edits Markdown files under a root directory.

  Modelling conventions:
  * Python strings are modelled as `List Char` (`Str`); Python compares and
    sorts strings by Unicode code point, which coincides with comparing the
    `toNat` of the characters in these lists.
  * Filesystem paths are modelled as lists of components (`List Str`); the
    canonical absolute form produced by `Path.resolve()` is modelled by
    `resolveFrom`, which resolves `..`, drops `.` and empty components
    (symlink indirection is not modelled: resolution is purely lexical).
  * The filesystem is an association list from resolved component paths to
    `FileData`.  A binding `Except.ok content` is a readable UTF-8 file; a
    binding `Except.error e` is a file that exists but whose open/read/decode
    raises an exception with message `e` (e.g. a directory or invalid UTF-8).
  * The body of a POST request, after being read with the declared
    Content-Length and decoded as UTF-8, is an `Except Str Str`: `ok` is the
    decoded text, `error e` models any exception raised while reading,
    decoding or writing inside the handler's `try` block.
  * `send_error` responses are modelled with the error message as the body
    (the surrounding HTML error-page shell produced by the Python base
    handler is elided); page templates keep their structure but elide the
    static CSS text, which no claim inspects.
-/

namespace MdServer

abbrev Str := List Char

def slashStr : Str := ("/").data

def mdExt : Str := (".md").data

def editPre : Str := ("/edit/").data

def savePre : Str := ("/save/").data

def dotStr : Str := (".").data

def dotdotStr : Str := ("..").data

/-- Python `s.startswith(pre)`. -/
def pyStartsWith (s pre : Str) : Bool := pre.isPrefixOf s

/-- Python `s.endswith(suf)`. -/
def pyEndsWith (s suf : Str) : Bool := suf.isSuffixOf s

/-- Python `s.lstrip("/")`: removes every leading slash. -/
def pyLstripSlash (s : Str) : Str := s.dropWhile (fun c => c = '/')

/-- Python `s.replace(pat, repl, 1)`: replaces the first occurrence only. -/
def replaceFirst (pat repl : Str) : Str → Str
  | [] => if pat = [] then repl else []
  | c :: cs =>
      if pat.isPrefixOf (c :: cs) then repl ++ (c :: cs).drop pat.length
      else c :: replaceFirst pat repl cs

/-- Hex digit value accepted by `urllib.parse.unquote` (both cases). -/
def hexVal? (c : Char) : Option Nat :=
  if 48 ≤ c.toNat ∧ c.toNat ≤ 57 then some (c.toNat - 48)
  else if 97 ≤ c.toNat ∧ c.toNat ≤ 102 then some (c.toNat - 87)
  else if 65 ≤ c.toNat ∧ c.toNat ≤ 70 then some (c.toNat - 55)
  else none

/-- Percent-decoding, modelling `urllib.parse.unquote` at the code-point
level: `%hh` with two hex digits decodes to the character with that code,
anything else passes through.  (Multi-byte UTF-8 percent sequences are
decoded byte by byte here; no claim involves non-ASCII request paths.) -/
def unquoteChars : Str → Str
  | [] => []
  | c :: a :: b :: rest =>
      if c = '%' then
        match hexVal? a, hexVal? b with
        | some ha, some hb => Char.ofNat (16 * ha + hb) :: unquoteChars rest
        | _, _ => c :: unquoteChars (a :: b :: rest)
      else c :: unquoteChars (a :: b :: rest)
  | c :: rest => c :: unquoteChars rest

/-- Split a path string on `'/'` (boundaries produce empty components, as
Python's `Path` constructor sees and then discards them). -/
def splitOnSlash : Str → List Str
  | [] => [[]]
  | c :: cs =>
      match splitOnSlash cs with
      | [] => if c = '/' then [[], []] else [[c]]
      | r :: rs => if c = '/' then [] :: r :: rs else (c :: r) :: rs

/-- `Path(root, parts...).resolve()` without symlinks: starting from the
(already canonical) `root` components, `..` pops the last component (a no-op
at the filesystem root), `.` and empty components are dropped, and every
other component is appended. -/
def resolveFrom (root : List Str) (parts : List Str) : List Str :=
  parts.foldl
    (fun acc c =>
      if c = dotdotStr then acc.dropLast
      else if c = dotStr ∨ c = [] then acc
      else acc ++ [c])
    root

/-- `p.relative_to(base)` for absolute component paths: succeeds iff `base`
is a component-wise prefix of `p`, returning the remaining components. -/
def relativeTo? (p base : List Str) : Option (List Str) :=
  if base.isPrefixOf p then some (p.drop base.length) else none

/-- The containment check in `save_markdown`:
`filepath.resolve().relative_to(SCRIPT_DIR.resolve())` does not raise. -/
def guardOk (root : List Str) (filename : Str) : Bool :=
  (relativeTo? (resolveFrom root (splitOnSlash filename)) root).isSome

deriving instance DecidableEq for Except

/-- Contents of a file: `ok` text, or `error e` when opening / reading /
decoding that existing file raises an exception with message `e`. -/
abbrev FileData := Except Str Str

/-- The filesystem: resolved component path to file data. -/
abbrev Fs := List (List Str × FileData)

def fsRead (p : List Str) : Fs → Option FileData
  | [] => none
  | (q, d) :: rest => if q = p then some d else fsRead p rest

def fsWrite (p : List Str) (v : FileData) : Fs → Fs
  | [] => [(p, v)]
  | (q, d) :: rest => if q = p then (p, v) :: rest else (q, d) :: fsWrite p v rest

structure Response where
  status : Nat
  contentType : Str
  body : Str
deriving DecidableEq

/-- Content type of pages sent by the handlers themselves. -/
def pageCT : Str := ("text/html; charset=utf-8").data

/-- Content type used by the base handler's `send_error`. -/
def errorCT : Str := ("text/html;charset=utf-8").data

def jsonCT : Str := ("application/json").data

/-- `self.send_error(status, msg)` (HTML error-page shell elided). -/
def sendError (status : Nat) (msg : Str) : Response :=
  { status := status, contentType := errorCT, body := msg }

def notFoundBody (filename : Str) : Str := ("File not found: ").data ++ filename

def readErrorBody (e : Str) : Str := ("Error reading file: ").data ++ e

def hexDigitChar (n : Nat) : Char :=
  if n < 10 then Char.ofNat (48 + n) else Char.ofNat (87 + n)

def uEscape (n : Nat) : Str :=
  ['\\', 'u', hexDigitChar (n / 4096 % 16), hexDigitChar (n / 256 % 16),
   hexDigitChar (n / 16 % 16), hexDigitChar (n % 16)]

/-- JSON string escaping as performed by `json.dumps` (default
`ensure_ascii=True`): quote, backslash and the short escapes, `\uXXXX` for
other characters outside the printable ASCII range, surrogate pairs beyond
the BMP. -/
def jsonEscapeChar (c : Char) : Str :=
  if c = '"' then ['\\', '"']
  else if c = '\\' then ['\\', '\\']
  else if c = '\n' then ['\\', 'n']
  else if c = '\r' then ['\\', 'r']
  else if c = '\t' then ['\\', 't']
  else if c = Char.ofNat 8 then ['\\', 'b']
  else if c = Char.ofNat 12 then ['\\', 'f']
  else if c.toNat < 32 ∨ 127 ≤ c.toNat then
    if c.toNat < 65536 then uEscape c.toNat
    else uEscape (55296 + (c.toNat - 65536) / 1024) ++
         uEscape (56320 + (c.toNat - 65536) % 1024)
  else [c]

def jsonEscape (s : Str) : Str := s.flatMap jsonEscapeChar

/-- `json.dumps({"success": True})`. -/
def jsonSuccessBody : Str := ("\x7b\"success\": true\x7d").data

/-- `json.dumps({"success": False, "error": str(e)})`. -/
def jsonErrorBody (e : Str) : Str :=
  ("\x7b\"success\": false, \"error\": \"").data ++ jsonEscape e ++ ("\"\x7d").data

/-- `save_markdown(filename)`: guard first (403 on escape, nothing written),
then read/decode the body and write the file; 200 JSON on success, 500 JSON
when any step in the `try` block raises. -/
def save_markdown (root : List Str) (filename : Str) (bodyRead : Except Str Str)
    (fs : Fs) : Response × Fs :=
  match relativeTo? (resolveFrom root (splitOnSlash filename)) root with
  | none => (sendError 403 (("Access denied").data), fs)
  | some _ =>
      match bodyRead with
      | Except.ok content =>
          ({ status := 200, contentType := jsonCT, body := jsonSuccessBody },
           fsWrite (resolveFrom root (splitOnSlash filename)) (Except.ok content) fs)
      | Except.error e =>
          ({ status := 500, contentType := jsonCT, body := jsonErrorBody e }, fs)

def backtick : Char := Char.ofNat 96

/-- Python `s.replace(t, r)` for a single-character pattern `t`. -/
def replaceAllChar (t : Char) (r : Str) : Str → Str
  | [] => []
  | c :: cs => (if c = t then r else [c]) ++ replaceAllChar t r cs

/-- The editor's content escaping:
`content.replace("\\", "\\\\").replace(backtick, "\\" + backtick).replace("$", "\\$")`,
backslashes first, then backticks, then dollar signs. -/
def escapeJs (s : Str) : Str :=
  replaceAllChar '$' ['\\', '$']
    (replaceAllChar backtick ['\\', backtick]
      (replaceAllChar '\\' ['\\', '\\'] s))

/-- Per-character view of `escapeJs` (used to reason about it). -/
def escCharJs (c : Char) : Str :=
  if c = '\\' then ['\\', '\\']
  else if c = backtick then ['\\', backtick]
  else if c = '$' then ['\\', '$']
  else [c]

/-- Template-literal un-escaping: `\\`, backslash-backtick and `\$` decode to
the escaped character; everything else passes through. -/
def unescapeJs : Str → Str
  | [] => []
  | [c] => [c]
  | c :: d :: cs =>
      if c = '\\' ∧ (d = '\\' ∨ d = backtick ∨ d = '$') then d :: unescapeJs cs
      else c :: unescapeJs (d :: cs)

/-- The Viewer page (`serve_markdown`'s 200 body): document shell with the
filename in the title, a back link, the filename header with an edit link,
and the converted fragment (static CSS text elided). -/
def viewerPage (filename htmlContent : Str) : Str :=
  ("<!DOCTYPE html><html><head><meta charset=\"UTF-8\"><title>").data ++ filename ++
  ("</title></head><body><a href=\"/\" class=\"back-link\">Back to file list</a><div class=\"filename\">").data ++
  filename ++
  ("<a href=\"/edit/").data ++ filename ++ ("\">[edit]</a></div>").data ++
  htmlContent ++
  ("</body></html>").data

/-- The Editor page (`serve_editor`'s 200 body): split-pane shell whose
textarea is pre-filled with the escaped content and whose script posts to
`/save/<filename>` (static CSS and the client script text elided). -/
def editorPage (filename contentEscaped : Str) : Str :=
  ("<!DOCTYPE html><html><head><meta charset=\"UTF-8\"><title>Edit: ").data ++ filename ++
  ("</title></head><body><div class=\"header\">Editing: ").data ++ filename ++
  ("</div><textarea id=\"editor\">").data ++ contentEscaped ++
  ("</textarea><script>fetch('/save/").data ++ filename ++
  ("')</script></body></html>").data

/-- `serve_markdown(filename)`: 404 when the target does not exist, then the
`try` block reads the file, converts it with the markdown library and sends
the page; any exception in that block yields
`send_error(500, "Error reading file: " + str(e))`.  `convert` is the
external `markdown.markdown(content, extensions=[...])` call. -/
def serve_markdown (root : List Str) (filename : Str)
    (convert : Str → Except Str Str) (fs : Fs) : Response :=
  match fsRead (resolveFrom root (splitOnSlash filename)) fs with
  | none => sendError 404 (notFoundBody filename)
  | some (Except.error e) => sendError 500 (readErrorBody e)
  | some (Except.ok content) =>
      match convert content with
      | Except.error e => sendError 500 (readErrorBody e)
      | Except.ok htmlContent =>
          { status := 200, contentType := pageCT,
            body := viewerPage filename htmlContent }

/-- `serve_editor(filename)`: 404 when the target does not exist, otherwise
the content is read, escaped for the inline script context and embedded in
the editor page; a read failure yields the same 500 as the viewer. -/
def serve_editor (root : List Str) (filename : Str) (fs : Fs) : Response :=
  match fsRead (resolveFrom root (splitOnSlash filename)) fs with
  | none => sendError 404 (notFoundBody filename)
  | some (Except.error e) => sendError 500 (readErrorBody e)
  | some (Except.ok content) =>
      { status := 200, contentType := pageCT,
        body := editorPage filename (escapeJs content) }

inductive Action where
  | index
  | editor (filename : Str)
  | viewer (filename : Str)
  | staticFallback
  | save (filename : Str)
  | noAction
deriving DecidableEq

/-- The GET dispatch chain of `do_GET`, applied to the percent-decoded path. -/
def routeGET (path : Str) : Action :=
  if path = slashStr ∨ path = [] then Action.index
  else if pyStartsWith path editPre && pyEndsWith path mdExt then
    Action.editor (replaceFirst editPre [] path)
  else if pyEndsWith path mdExt then Action.viewer (pyLstripSlash path)
  else Action.staticFallback

/-- `do_GET`: percent-decode the URL path, then dispatch. -/
def do_GET (rawPath : Str) : Action := routeGET (unquoteChars rawPath)

/-- The POST dispatch of `do_POST`, applied to the percent-decoded path:
only `/save/<name>.md` is handled, everything else falls through the single
`if` with no else branch. -/
def routePOST (path : Str) : Action :=
  if pyStartsWith path savePre && pyEndsWith path mdExt then
    Action.save (replaceFirst savePre [] path)
  else Action.noAction

/-- `do_POST`: percent-decode the URL path, then dispatch. -/
def do_POST (rawPath : Str) : Action := routePOST (unquoteChars rawPath)

/-- A whole POST request: route, and run `save_markdown` when it matches.
The first component is the response written back (`none` when the handler
writes nothing at all), the second the resulting filesystem. -/
def handlePOST (root : List Str) (rawPath : Str) (bodyRead : Except Str Str)
    (fs : Fs) : Option Response × Fs :=
  match do_POST rawPath with
  | Action.save filename =>
      let r := save_markdown root filename bodyRead fs
      (some r.1, r.2)
  | _ => (none, fs)

/-- A directory listing, encoded as a cons-list of entries: `fileNode n rest`
is a regular file named `n` followed by the remaining siblings, and
`dirNode d children rest` a subdirectory named `d` with its own listing.
(`os.walk` yields a directory's files before its subdirectories; this
encoding interleaves them, which is irrelevant because `serve_index` sorts
the collected list.) -/
inductive Tree where
  | leaf
  | fileNode (name : Str) (rest : Tree)
  | dirNode (name : Str) (children : Tree) (rest : Tree)
deriving DecidableEq

/-- All names in the tree are nonempty (as on a real filesystem). -/
def wfTree : Tree → Bool
  | Tree.leaf => true
  | Tree.fileNode n rest => !n.isEmpty && wfTree rest
  | Tree.dirNode d children rest => !d.isEmpty && wfTree children && wfTree rest

/-- `os.path.join(pre, n)` for the relative prefix built during the walk. -/
def joinRel (pre n : Str) : Str := if pre.isEmpty then n else pre ++ '/' :: n

/-- The collection loop of `serve_index`: hidden directories are pruned from
the walk (`dirs[:] = [d for d in dirs if not d.startswith(".")]`), and a file
is kept when it ends in `.md` and does not start with a dot; kept files are
recorded as paths relative to the root. -/
def collect (pre : Str) : Tree → List Str
  | Tree.leaf => []
  | Tree.fileNode n rest =>
      (if pyEndsWith n mdExt && !(pyStartsWith n dotStr) then [joinRel pre n] else []) ++
      collect pre rest
  | Tree.dirNode d children rest =>
      (if pyStartsWith d dotStr then [] else collect (joinRel pre d) children) ++
      collect pre rest

/-- Code-point lexicographic order on strings, Python's `<=` used by
`list.sort()`. -/
def lexLe : Str → Str → Bool
  | [], _ => true
  | _ :: _, [] => false
  | a :: as, b :: bs =>
      if a.toNat < b.toNat then true
      else if b.toNat < a.toNat then false
      else lexLe as bs

/-- The File Lister: the sorted list of relative paths `serve_index` renders. -/
def serve_index_files (t : Tree) : List Str :=
  (collect [] t).mergeSort lexLe

/-- Every file path in the tree, as root-relative component lists, with no
filtering: the `walk(tree)` of the specification's property. -/
def walkAll (pre : List Str) : Tree → List (List Str)
  | Tree.leaf => []
  | Tree.fileNode n rest => (pre ++ [n]) :: walkAll pre rest
  | Tree.dirNode d children rest => walkAll (pre ++ [d]) children ++ walkAll pre rest

/-- The specification's filter: the file name ends in `.md` and no component
of the path begins with a dot. -/
def isMdNotHidden (p : List Str) : Bool :=
  p.all (fun c => !(pyStartsWith c dotStr)) &&
  (match p.getLast? with
   | some n => pyEndsWith n mdExt
   | none => false)

/-- Render a component path as the relative path string the walk produces. -/
def joinComponents : List Str → Str
  | [] => []
  | [c] => c
  | c :: cs => c ++ '/' :: joinComponents cs

theorem isPrefixOf_eq_true_iff (a b : List Str) :
    a.isPrefixOf b = true ↔ ∃ t, b = a ++ t := by
  rw [ List.isPrefixOf_iff_prefix]
  constructor
  · rintro ⟨t, ht⟩
    exact ⟨t, ht.symm⟩
  · rintro ⟨t, ht⟩
    exact ⟨t, ht.symm⟩

theorem guardOk_iff_exists_append (root : List Str) (p : Str) :
    guardOk root p = true ↔
      ∃ t, resolveFrom root (splitOnSlash p) = root ++ t := by
  simp only [guardOk, relativeTo?]
  split
  next h =>
    simp only [Option.isSome_some, true_iff]
    exact (isPrefixOf_eq_true_iff root _).mp h
  next h =>
    simp only [Option.isSome_none, Bool.false_eq_true, false_iff]
    intro hex
    exact h ((isPrefixOf_eq_true_iff root _).mpr hex)

theorem relativeTo?_eq_none_of_guard_false (root : List Str) (p : Str)
    (h : guardOk root p = false) :
    relativeTo? (resolveFrom root (splitOnSlash p)) root = none := by
  cases hr : relativeTo? (resolveFrom root (splitOnSlash p)) root with
  | none => rfl
  | some v =>
      exfalso
      simp only [guardOk, hr, Option.isSome_some] at h
      exact Bool.noConfusion h

theorem relativeTo?_eq_some_of_guard_true (root : List Str) (p : Str)
    (h : guardOk root p = true) :
    ∃ v, relativeTo? (resolveFrom root (splitOnSlash p)) root = some v := by
  cases hr : relativeTo? (resolveFrom root (splitOnSlash p)) root with
  | none =>
      exfalso
      simp only [guardOk, hr, Option.isSome_none] at h
      exact Bool.noConfusion h
  | some v => exact ⟨v, rfl⟩

theorem fsRead_fsWrite_self (p : List Str) (v : FileData) (fs : Fs) :
    fsRead p (fsWrite p v fs) = some v := by
  induction fs with
  | nil => simp [fsWrite, fsRead]
  | cons hd tl ih =>
      obtain ⟨q, d⟩ := hd
      by_cases h : q = p
      · simp [fsWrite, fsRead, h]
      · simp [fsWrite, fsRead, h, ih]

theorem fsWrite_idem (p : List Str) (v : FileData) (fs : Fs) :
    fsWrite p v (fsWrite p v fs) = fsWrite p v fs := by
  induction fs with
  | nil => simp [fsWrite]
  | cons hd tl ih =>
      obtain ⟨q, d⟩ := hd
      by_cases h : q = p
      · simp [fsWrite, h]
      · simp [fsWrite, h, ih]

/-- Claim C1: for every relative path `p`, the containment check of
`save_markdown` succeeds iff the canonical absolute form of the root joined
with `p` equals the root or is a descendant of the root; and for a concrete
root directory, `../outside.md` is rejected. -/
theorem guard_succeeds_iff_descendant :
    (∀ (root : List Str) (p : Str),
       guardOk root p = true ↔
         (resolveFrom root (splitOnSlash p) = root ∨
          ∃ s, s ≠ [] ∧ resolveFrom root (splitOnSlash p) = root ++ s)) ∧
    guardOk [("srv").data, ("mdserver").data] (("../outside.md").data) = false := by
  constructor
  · intro root p
    rw [guardOk_iff_exists_append]
    constructor
    · rintro ⟨t, ht⟩
      rcases eq_or_ne t [] with rfl | hne
      · left
        simpa using ht
      · right
        exact ⟨t, hne, ht⟩
    · rintro (heq | ⟨s, _, hs⟩)
      · exact ⟨[], by simpa using heq⟩
      · exact ⟨s, hs⟩
  · decide

theorem save_markdown_eq_of_guard_false (root : List Str) (filename : Str)
    (bodyRead : Except Str Str) (fs : Fs)
    (h : guardOk root filename = false) :
    save_markdown root filename bodyRead fs =
      (sendError 403 (("Access denied").data), fs) := by
  unfold save_markdown
  rw [relativeTo?_eq_none_of_guard_false root filename h]

/-- Claim C3: a POST to the save endpoint whose path fails the containment
check gets the 403 `Access denied` error, and the filesystem is returned
unchanged — no write happens. -/
theorem save_traversal_403_fs_unchanged (root : List Str) (filename : Str)
    (bodyRead : Except Str Str) (fs : Fs)
    (h : guardOk root filename = false) :
    save_markdown root filename bodyRead fs =
      (sendError 403 (("Access denied").data), fs) :=
  save_markdown_eq_of_guard_false root filename bodyRead fs h

theorem save_traversal_403_fs_unchanged_witness :
    guardOk [("srv").data] (("../outside.md").data) = false ∧
    save_markdown [("srv").data] (("../outside.md").data)
        (Except.ok (("x").data))
        [([("srv").data, ("notes.md").data], Except.ok (("old").data))] =
      (sendError 403 (("Access denied").data),
       [([("srv").data, ("notes.md").data], Except.ok (("old").data))]) :=
  ⟨by decide,
   save_traversal_403_fs_unchanged [("srv").data] (("../outside.md").data)
     (Except.ok (("x").data))
     [([("srv").data, ("notes.md").data], Except.ok (("old").data))]
     (by decide)⟩

/-- Claim C4: a save that passes the guard stores exactly the decoded body —
reading the target back yields that content unchanged — and saving the same
content twice leaves the filesystem exactly as saving it once. -/
theorem save_roundtrip_idempotent (root : List Str) (filename : Str)
    (content : Str) (fs : Fs) (h : guardOk root filename = true) :
    fsRead (resolveFrom root (splitOnSlash filename))
        (save_markdown root filename (Except.ok content) fs).2 =
      some (Except.ok content) ∧
    (save_markdown root filename (Except.ok content)
        (save_markdown root filename (Except.ok content) fs).2).2 =
      (save_markdown root filename (Except.ok content) fs).2 := by
  obtain ⟨v, hv⟩ := relativeTo?_eq_some_of_guard_true root filename h
  unfold save_markdown
  rw [hv]
  exact ⟨fsRead_fsWrite_self _ _ _, fsWrite_idem _ _ _⟩

theorem save_roundtrip_idempotent_witness :
    guardOk [("srv").data] (("notes.md").data) = true ∧
    (fsRead (resolveFrom [("srv").data] (splitOnSlash (("notes.md").data)))
        (save_markdown [("srv").data] (("notes.md").data)
          (Except.ok (("# Hi").data)) []).2 =
      some (Except.ok (("# Hi").data)) ∧
    (save_markdown [("srv").data] (("notes.md").data)
        (Except.ok (("# Hi").data))
        (save_markdown [("srv").data] (("notes.md").data)
          (Except.ok (("# Hi").data)) []).2).2 =
      (save_markdown [("srv").data] (("notes.md").data)
        (Except.ok (("# Hi").data)) []).2) :=
  ⟨by decide,
   save_roundtrip_idempotent [("srv").data] (("notes.md").data)
     (("# Hi").data) [] (by decide)⟩

/-- Claim C8: once the guard passes, a save whose body read, decode and
write succeed answers 200 with the JSON success body, and a save where any
of those steps raises answers 500 with the JSON failure body carrying the
exception text; both responses carry the `application/json` content type. -/
theorem save_json_responses (root : List Str) (filename : Str)
    (content e : Str) (fs : Fs) (h : guardOk root filename = true) :
    (save_markdown root filename (Except.ok content) fs).1 =
      { status := 200, contentType := jsonCT, body := jsonSuccessBody } ∧
    (save_markdown root filename (Except.error e) fs).1 =
      { status := 500, contentType := jsonCT, body := jsonErrorBody e } := by
  obtain ⟨v, hv⟩ := relativeTo?_eq_some_of_guard_true root filename h
  unfold save_markdown
  rw [hv]
  exact ⟨rfl, rfl⟩

theorem save_json_responses_witness :
    guardOk [("srv").data] (("notes.md").data) = true ∧
    ((save_markdown [("srv").data] (("notes.md").data)
        (Except.ok (("# Hi").data)) []).1 =
      { status := 200, contentType := jsonCT, body := jsonSuccessBody } ∧
    (save_markdown [("srv").data] (("notes.md").data)
        (Except.error (("boom").data)) []).1 =
      { status := 500, contentType := jsonCT,
        body := jsonErrorBody (("boom").data) }) :=
  ⟨by decide,
   save_json_responses [("srv").data] (("notes.md").data)
     (("# Hi").data) (("boom").data) [] (by decide)⟩

/-- Claim C10: a POST whose percent-decoded path does not both start with
`/save/` and end with `.md` is not handled at all: no response is written
and the filesystem is untouched. -/
theorem post_unmatched_no_action (root : List Str) (rawPath : Str)
    (bodyRead : Except Str Str) (fs : Fs)
    (h : ¬(pyStartsWith (unquoteChars rawPath) savePre = true ∧
           pyEndsWith (unquoteChars rawPath) mdExt = true)) :
    handlePOST root rawPath bodyRead fs = (none, fs) := by
  have hb : (pyStartsWith (unquoteChars rawPath) savePre &&
             pyEndsWith (unquoteChars rawPath) mdExt) = false := by
    cases hs : pyStartsWith (unquoteChars rawPath) savePre with
    | false => simp
    | true =>
        cases he : pyEndsWith (unquoteChars rawPath) mdExt with
        | false => simp
        | true => exact absurd ⟨hs, he⟩ h
  unfold handlePOST do_POST routePOST
  rw [hb]
  simp

/-- Claim C2, counterexample: the claim says every Document path handled by
a read operation resolves inside the root, but the Viewer dispatches
`/../outside.md` and `serve_markdown` then operates on a path outside the
root: with the outside file present it serves it (200), without it the
response is 404 — no containment check runs on reads. -/
theorem viewer_reads_outside_root_cex :
    do_GET (("/../outside.md").data) =
      Action.viewer (("../outside.md").data) ∧
    List.isPrefixOf [("srv").data]
        (resolveFrom [("srv").data]
          (splitOnSlash (("../outside.md").data))) = false ∧
    (serve_markdown [("srv").data] (("../outside.md").data) Except.ok
        [([("outside.md").data], Except.ok (("secret").data))]).status = 200 ∧
    (serve_markdown [("srv").data] (("../outside.md").data) Except.ok
        []).status = 404 :=
  ⟨by decide, by decide, by decide, by decide⟩

/-- Claim C2, amended: only the write operation enforces the containment
invariant — whenever a save changes the filesystem, the written path
resolves to the root or below it; the read operations (Viewer and Editor)
join the caller-supplied path to the root with no containment check and can
operate outside the root (see the counterexample). -/
theorem save_only_writes_inside_root (root : List Str) (filename : Str)
    (bodyRead : Except Str Str) (fs : Fs)
    (h : (save_markdown root filename bodyRead fs).2 ≠ fs) :
    ∃ t, resolveFrom root (splitOnSlash filename) = root ++ t := by
  by_cases hg : guardOk root filename = true
  · exact (guardOk_iff_exists_append root filename).mp hg
  · exfalso
    apply h
    have hg' : guardOk root filename = false := by
      cases hb : guardOk root filename with
      | true => exact absurd hb hg
      | false => rfl
    rw [save_markdown_eq_of_guard_false root filename bodyRead fs hg']

theorem save_only_writes_inside_root_witness :
    (save_markdown [("srv").data] (("a.md").data)
        (Except.ok (("hi").data)) []).2 ≠ [] ∧
    ∃ t, resolveFrom [("srv").data] (splitOnSlash (("a.md").data)) =
      [("srv").data] ++ t :=
  ⟨by decide,
   save_only_writes_inside_root [("srv").data] (("a.md").data)
     (Except.ok (("hi").data)) [] (by decide)⟩

/-- Claim C6: the router percent-decodes the URL path first and then
dispatches by sequential pattern tests with the more specific prefix
winning: `/` or the empty path to the Index; `/edit/…​.md` to the Editor
(not the Viewer); other `.md` paths to the Viewer; any other GET to the
static fallback; and POST `/save/…​.md` to the save operation. -/
theorem router_dispatch_table :
    (∀ rawPath : Str, do_GET rawPath = routeGET (unquoteChars rawPath)) ∧
    (∀ rawPath : Str, do_POST rawPath = routePOST (unquoteChars rawPath)) ∧
    (∀ path : Str, (path = slashStr ∨ path = []) →
       routeGET path = Action.index) ∧
    (∀ path : Str, pyStartsWith path editPre = true →
       pyEndsWith path mdExt = true →
       routeGET path = Action.editor (replaceFirst editPre [] path)) ∧
    (∀ path : Str, path ≠ slashStr → path ≠ [] →
       pyStartsWith path editPre = false → pyEndsWith path mdExt = true →
       routeGET path = Action.viewer (pyLstripSlash path)) ∧
    (∀ path : Str, path ≠ slashStr → path ≠ [] →
       pyEndsWith path mdExt = false →
       routeGET path = Action.staticFallback) ∧
    (∀ path : Str, pyStartsWith path savePre = true →
       pyEndsWith path mdExt = true →
       routePOST path = Action.save (replaceFirst savePre [] path)) ∧
    (∀ path : Str, ¬(pyStartsWith path savePre = true ∧
                     pyEndsWith path mdExt = true) →
       routePOST path = Action.noAction) := by
  refine ⟨fun _ => rfl, fun _ => rfl, ?_, ?_, ?_, ?_, ?_, ?_⟩
  · intro path h
    unfold routeGET
    rw [if_pos h]
  · intro path hs he
    have hpre := ( List.isPrefixOf_iff_prefix).mp hs
    have hlen : 6 ≤ path.length := by
      have h1 := hpre.length_le
      have h6 : editPre.length = 6 := by decide
      rw [h6] at h1
      exact h1
    have hcond : ¬(path = slashStr ∨ path = []) := by
      rintro (rfl | rfl)
      · exact absurd hlen (by decide)
      · exact absurd hlen (by decide)
    unfold routeGET
    rw [if_neg hcond, hs, he]
    simp
  · intro path h1 h2 h3 h4
    have hcond : ¬(path = slashStr ∨ path = []) := by
      rintro (h | h)
      · exact h1 h
      · exact h2 h
    unfold routeGET
    rw [if_neg hcond, h3, h4]
    simp
  · intro path h1 h2 h3
    have hcond : ¬(path = slashStr ∨ path = []) := by
      rintro (h | h)
      · exact h1 h
      · exact h2 h
    unfold routeGET
    rw [if_neg hcond, h3]
    simp
  · intro path hs he
    unfold routePOST
    rw [hs, he]
    simp
  · intro path h
    have hb : (pyStartsWith path savePre && pyEndsWith path mdExt) = false := by
      cases hs : pyStartsWith path savePre with
      | false => simp
      | true =>
          cases hee : pyEndsWith path mdExt with
          | false => simp
          | true => exact absurd ⟨hs, hee⟩ h
    unfold routePOST
    rw [hb]
    simp

theorem router_dispatch_table_witness :
    do_GET (("/edit/a.md").data) = Action.editor (("a.md").data) ∧
    do_GET (("/notes.md").data) = Action.viewer (("notes.md").data) ∧
    do_GET (("/").data) = Action.index ∧
    do_GET (("/img.png").data) = Action.staticFallback ∧
    do_POST (("/save/a.md").data) = Action.save (("a.md").data) := by
  refine ⟨?_, ?_, ?_, ?_, ?_⟩
  · rw [router_dispatch_table.1,
        router_dispatch_table.2.2.2.1 (unquoteChars (("/edit/a.md").data))
          (by decide) (by decide)]
    decide
  · rw [router_dispatch_table.1,
        router_dispatch_table.2.2.2.2.1 (unquoteChars (("/notes.md").data))
          (by decide) (by decide) (by decide) (by decide)]
    decide
  · rw [router_dispatch_table.1,
        router_dispatch_table.2.2.1 (unquoteChars (("/").data))
          (by decide)]
  · rw [router_dispatch_table.1,
        router_dispatch_table.2.2.2.2.2.1 (unquoteChars (("/img.png").data))
          (by decide) (by decide) (by decide)]
  · rw [router_dispatch_table.2.1,
        router_dispatch_table.2.2.2.2.2.2.1 (unquoteChars (("/save/a.md").data))
          (by decide) (by decide)]
    decide

/-- Claim C7: a GET for a Viewer or Editor page whose target file does not
exist answers 404 with a message containing the requested filename, without
attempting a read or a Markdown conversion; a read failure on an existing
file, or a conversion failure, answers 500 carrying the exception text. -/
theorem read_handlers_404_500 (root : List Str) (filename : Str)
    (convert convert2 : Str → Except Str Str) (fs : Fs) :
    (fsRead (resolveFrom root (splitOnSlash filename)) fs = none →
       serve_markdown root filename convert fs =
         sendError 404 (notFoundBody filename) ∧
       serve_editor root filename fs = sendError 404 (notFoundBody filename) ∧
       serve_markdown root filename convert fs =
         serve_markdown root filename convert2 fs ∧
       notFoundBody filename = ("File not found: ").data ++ filename) ∧
    (∀ e, fsRead (resolveFrom root (splitOnSlash filename)) fs =
            some (Except.error e) →
       serve_markdown root filename convert fs =
         sendError 500 (readErrorBody e) ∧
       serve_editor root filename fs = sendError 500 (readErrorBody e)) ∧
    (∀ content e,
       fsRead (resolveFrom root (splitOnSlash filename)) fs =
         some (Except.ok content) →
       convert content = Except.error e →
       serve_markdown root filename convert fs =
         sendError 500 (readErrorBody e)) := by
  refine ⟨?_, ?_, ?_⟩
  · intro hread
    refine ⟨?_, ?_, ?_, rfl⟩
    · simp only [serve_markdown, hread]
    · simp only [serve_editor, hread]
    · simp only [serve_markdown, hread]
  · intro e hread
    constructor
    · simp only [serve_markdown, hread]
    · simp only [serve_editor, hread]
  · intro content e hread hconv
    simp only [serve_markdown, hread, hconv]

theorem read_handlers_404_500_witness :
    serve_markdown [("srv").data] (("missing.md").data) Except.ok [] =
      sendError 404 (notFoundBody (("missing.md").data)) ∧
    serve_editor [("srv").data] (("missing.md").data) [] =
      sendError 404 (notFoundBody (("missing.md").data)) := by
  have h := (read_handlers_404_500 [("srv").data] (("missing.md").data)
      Except.ok Except.ok []).1 (by decide)
  exact ⟨h.1, h.2.1⟩

theorem replaceAllChar_append (t : Char) (r : Str) (a b : Str) :
    replaceAllChar t r (a ++ b) =
      replaceAllChar t r a ++ replaceAllChar t r b := by
  induction a with
  | nil => rfl
  | cons c cs ih => simp [replaceAllChar, ih]

theorem escapeJs_eq_flatMap (s : Str) : escapeJs s = s.flatMap escCharJs := by
  have hbs_bt : ('\\' : Char) ≠ backtick := by decide
  have hbs_dl : ('\\' : Char) ≠ '$' := by decide
  have hbt_dl : backtick ≠ '$' := by decide
  induction s with
  | nil => rfl
  | cons c cs ih =>
      rw [List.flatMap_cons, ← ih]
      by_cases h1 : c = '\\'
      · subst h1
        simp [escapeJs, replaceAllChar, replaceAllChar_append, escCharJs,
              hbs_bt, hbs_dl]
      · by_cases h2 : c = backtick
        · subst h2
          simp [escapeJs, replaceAllChar, replaceAllChar_append, escCharJs,
                hbs_bt, hbs_dl, hbt_dl, h1]
        · by_cases h3 : c = '$'
          · subst h3
            simp [escapeJs, replaceAllChar, replaceAllChar_append, escCharJs,
                  hbs_dl, hbt_dl, h1, h2]
          · simp [escapeJs, replaceAllChar, replaceAllChar_append, escCharJs,
                  h1, h2, h3]

theorem unescapeJs_cons_escaped (d : Char) (rest : Str)
    (h : d = '\\' ∨ d = backtick ∨ d = '$') :
    unescapeJs ('\\' :: d :: rest) = d :: unescapeJs rest := by
  simp only [unescapeJs]
  rw [if_pos ⟨trivial, h⟩]

theorem unescapeJs_cons_plain (c : Char) (rest : Str) (h : c ≠ '\\') :
    unescapeJs (c :: rest) = c :: unescapeJs rest := by
  cases rest with
  | nil => rfl
  | cons d ds =>
      simp only [unescapeJs]
      rw [if_neg (fun hc => h hc.1)]

/-- Claim C9: the Editor page embeds the file content after escaping
backslashes first, then backticks, then dollar signs, and this escaping is
invertible — un-escaping the embedded string recovers the original content
exactly, so backticks and dollar signs survive literally. -/
theorem editor_escaping_invertible :
    (∀ (root : List Str) (filename : Str) (fs : Fs) (content : Str),
       fsRead (resolveFrom root (splitOnSlash filename)) fs =
         some (Except.ok content) →
       serve_editor root filename fs =
         { status := 200, contentType := pageCT,
           body := editorPage filename (escapeJs content) }) ∧
    (∀ s : Str, escapeJs s = s.flatMap escCharJs) ∧
    (∀ s : Str, unescapeJs (escapeJs s) = s) := by
  refine ⟨?_, escapeJs_eq_flatMap, ?_⟩
  · intro root filename fs content hread
    simp only [serve_editor, hread]
  · intro s
    induction s with
    | nil => rfl
    | cons c cs ih =>
        rw [escapeJs_eq_flatMap, List.flatMap_cons, ← escapeJs_eq_flatMap]
        by_cases h1 : c = '\\'
        · subst h1
          show unescapeJs ('\\' :: '\\' :: escapeJs cs) = '\\' :: cs
          rw [unescapeJs_cons_escaped '\\' (escapeJs cs) (Or.inl rfl), ih]
        · by_cases h2 : c = backtick
          · subst h2
            show unescapeJs ('\\' :: backtick :: escapeJs cs) =
              backtick :: cs
            rw [unescapeJs_cons_escaped backtick (escapeJs cs)
                  (Or.inr (Or.inl rfl)), ih]
          · by_cases h3 : c = '$'
            · subst h3
              show unescapeJs ('\\' :: '$' :: escapeJs cs) = '$' :: cs
              rw [unescapeJs_cons_escaped '$' (escapeJs cs)
                    (Or.inr (Or.inr rfl)), ih]
            · have hc : escCharJs c = [c] := by
                simp [escCharJs, h1, h2, h3]
              rw [hc]
              show unescapeJs (c :: escapeJs cs) = c :: cs
              rw [unescapeJs_cons_plain c (escapeJs cs) h1, ih]

theorem editor_escaping_invertible_witness :
    serve_editor [("srv").data] (("notes.md").data)
        [([("srv").data, ("notes.md").data],
          Except.ok [backtick, '$'])] =
      { status := 200, contentType := pageCT,
        body := editorPage (("notes.md").data)
          (escapeJs [backtick, '$']) } :=
  editor_escaping_invertible.1 [("srv").data] (("notes.md").data)
    [([("srv").data, ("notes.md").data], Except.ok [backtick, '$'])]
    [backtick, '$'] (by decide)

theorem post_unmatched_no_action_witness :
    ¬(pyStartsWith (unquoteChars (("/upload/a.txt").data)) savePre = true ∧
      pyEndsWith (unquoteChars (("/upload/a.txt").data)) mdExt = true) ∧
    handlePOST [("srv").data] (("/upload/a.txt").data)
        (Except.ok (("x").data)) [] = (none, []) :=
  ⟨by decide,
   post_unmatched_no_action [("srv").data] (("/upload/a.txt").data)
     (Except.ok (("x").data)) [] (by decide)⟩

theorem joinComponents_ne_nil (cs : List Str) (hne : cs ≠ [])
    (hall : cs.all (fun c => !c.isEmpty) = true) : joinComponents cs ≠ [] := by
  cases cs with
  | nil => exact absurd rfl hne
  | cons c cs' =>
      cases cs' with
      | nil =>
          simp only [joinComponents]
          simp only [List.all_cons, Bool.and_eq_true] at hall
          intro hc
          rw [hc] at hall
          exact Bool.noConfusion hall.1
      | cons c' cs'' =>
          simp only [joinComponents]
          intro hc
          rcases List.append_eq_nil.mp hc with ⟨-, h2⟩
          exact List.noConfusion h2

theorem joinRel_joinComponents (pre : List Str) (n : Str)
    (hall : pre.all (fun c => !c.isEmpty) = true) :
    joinRel (joinComponents pre) n = joinComponents (pre ++ [n]) := by
  induction pre with
  | nil => simp [joinRel, joinComponents]
  | cons c cs ih =>
      simp only [List.all_cons, Bool.and_eq_true] at hall
      cases cs with
      | nil =>
          simp only [joinComponents, List.cons_append, List.nil_append, joinRel]
          rw [if_neg]
          intro hc
          rw [List.isEmpty_iff] at hc
          rw [hc] at hall
          exact Bool.noConfusion hall.1
      | cons c' cs' =>
          have hne : joinComponents (c' :: cs') ≠ [] :=
            joinComponents_ne_nil (c' :: cs') (List.cons_ne_nil c' cs') hall.2
          have ihe := ih hall.2
          have hjoin : joinRel (joinComponents (c' :: cs')) n =
              joinComponents (c' :: cs') ++ '/' :: n := by
            unfold joinRel
            rw [if_neg (fun hc => hne (List.isEmpty_iff.mp hc))]
          rw [hjoin] at ihe
          have h1 : joinComponents (c :: c' :: cs') =
              c ++ '/' :: joinComponents (c' :: cs') := rfl
          have h2 : joinComponents ((c :: c' :: cs') ++ [n]) =
              c ++ '/' :: joinComponents ((c' :: cs') ++ [n]) := rfl
          rw [h1, h2, ← ihe]
          unfold joinRel
          rw [if_neg]
          · simp [List.append_assoc]
          · intro hc
            rw [List.isEmpty_iff, List.append_eq_nil] at hc
            exact List.noConfusion hc.2

theorem walkAll_mem_append (t : Tree) :
    ∀ (pre : List Str) (q : List Str),
      q ∈ walkAll pre t → ∃ suf, q = pre ++ suf := by
  induction t with
  | leaf =>
      intro pre q hq
      exact absurd hq (List.not_mem_nil q)
  | fileNode n rest ih =>
      intro pre q hq
      rcases List.mem_cons.mp hq with h | h
      · exact ⟨[n], h⟩
      · exact ih pre q h
  | dirNode d children rest ihc ihr =>
      intro pre q hq
      rcases List.mem_append.mp hq with h | h
      · obtain ⟨s, hs⟩ := ihc (pre ++ [d]) q h
        exact ⟨[d] ++ s, by rw [hs, List.append_assoc]⟩
      · exact ihr pre q h

theorem collect_eq_filter_walk (t : Tree) :
    ∀ pre : List Str, wfTree t = true →
      pre.all (fun c => !(pyStartsWith c dotStr)) = true →
      pre.all (fun c => !c.isEmpty) = true →
      collect (joinComponents pre) t =
        ((walkAll pre t).filter isMdNotHidden).map joinComponents := by
  induction t with
  | leaf => intro pre _ _ _; rfl
  | fileNode n rest ih =>
      intro pre hwf hhid hne
      simp only [wfTree, Bool.and_eq_true] at hwf
      have hpred : isMdNotHidden (pre ++ [n]) =
          (pyEndsWith n mdExt && !(pyStartsWith n dotStr)) := by
        simp [isMdNotHidden, List.all_append, List.all_cons, hhid,
              List.getLast?_concat, Bool.and_comm]
      simp only [collect, walkAll, List.filter_cons, hpred]
      cases hc : (pyEndsWith n mdExt && !(pyStartsWith n dotStr)) with
      | false =>
          simp only [Bool.false_eq_true, if_false, List.nil_append]
          exact ih pre hwf.2 hhid hne
      | true =>
          simp only [if_true, List.map_cons, List.singleton_append]
          rw [joinRel_joinComponents pre n hne, ih pre hwf.2 hhid hne]
  | dirNode d children rest ihc ihr =>
      intro pre hwf hhid hne
      simp only [wfTree, Bool.and_eq_true] at hwf
      simp only [collect, walkAll, List.filter_append, List.map_append]
      cases hd : pyStartsWith d dotStr with
      | true =>
          have hfil : (walkAll (pre ++ [d]) children).filter isMdNotHidden = [] := by
            rw [List.filter_eq_nil_iff]
            intro q hq
            obtain ⟨suf, rfl⟩ := walkAll_mem_append children (pre ++ [d]) q hq
            simp [isMdNotHidden, List.all_append, List.all_cons, hd]
          simp only [Bool.true_eq_false, if_true, hfil, List.map_nil,
                     List.nil_append]
          exact ihr pre hwf.2 hhid hne
      | false =>
          simp only [Bool.false_eq_true, if_false]
          have hhid' : (pre ++ [d]).all (fun c => !(pyStartsWith c dotStr)) = true := by
            simp [List.all_append, List.all_cons, hhid, hd]
          have hne' : (pre ++ [d]).all (fun c => !c.isEmpty) = true := by
            simp only [List.all_append, List.all_cons, hne, Bool.true_and,
                       List.all_nil, Bool.and_true]
            exact hwf.1.1
          rw [joinRel_joinComponents pre d hne,
              ihc (pre ++ [d]) hwf.1.2 hhid' hne',
              ihr pre hwf.2 hhid hne]

theorem lexLe_total (a : Str) : ∀ b : Str, (lexLe a b || lexLe b a) = true := by
  induction a with
  | nil => intro b; simp [lexLe]
  | cons c cs ih =>
      intro b
      cases b with
      | nil => simp [lexLe]
      | cons d ds =>
          simp only [lexLe]
          by_cases h1 : c.toNat < d.toNat
          · simp [h1]
          · by_cases h2 : d.toNat < c.toNat
            · simp [h1, h2]
            · simp [h1, h2, ih ds]

theorem lexLe_trans (a : Str) :
    ∀ b c : Str, lexLe a b = true → lexLe b c = true → lexLe a c = true := by
  induction a with
  | nil => intro b c _ _; simp [lexLe]
  | cons x xs ih =>
      intro b c h1 h2
      cases b with
      | nil => simp [lexLe] at h1
      | cons y ys =>
          cases c with
          | nil => simp [lexLe] at h2
          | cons z zs =>
              simp only [lexLe] at h1 h2 ⊢
              by_cases hxy : x.toNat < y.toNat
              · by_cases hyz : y.toNat < z.toNat
                · rw [if_pos (Nat.lt_trans hxy hyz)]
                · rw [if_neg hyz] at h2
                  by_cases hzy : z.toNat < y.toNat
                  · rw [if_pos hzy] at h2
                    exact absurd h2 (by simp)
                  · have hxz : x.toNat < z.toNat := by omega
                    rw [if_pos hxz]
              · rw [if_neg hxy] at h1
                by_cases hyx : y.toNat < x.toNat
                · rw [if_pos hyx] at h1
                  exact absurd h1 (by simp)
                · rw [if_neg hyx] at h1
                  by_cases hyz : y.toNat < z.toNat
                  · have hxz : x.toNat < z.toNat := by omega
                    rw [if_pos hxz]
                  · rw [if_neg hyz] at h2
                    by_cases hzy : z.toNat < y.toNat
                    · rw [if_pos hzy] at h2
                      exact absurd h2 (by simp)
                    · rw [if_neg hzy] at h2
                      have hxz : ¬x.toNat < z.toNat := by omega
                      have hzx : ¬z.toNat < x.toNat := by omega
                      rw [if_neg hxz, if_neg hzx]
                      exact ih ys zs h1 h2

/-- Claim C5: for every (well-formed) directory tree, the File Lister
returns exactly the relative paths of the files whose name ends in `.md`
and whose path has no component beginning with a dot, sorted ascending by
code-point lexicographic order — `lister(tree)` equals
`sorted(filter(is_markdown_and_not_hidden, walk(tree)))`, and the result is
sorted; an empty result is an ordinary value. -/
theorem lister_eq_sorted_filtered_walk (t : Tree) (h : wfTree t = true) :
    serve_index_files t =
      (((walkAll [] t).filter isMdNotHidden).map joinComponents).mergeSort lexLe ∧
    List.Pairwise (fun a b => lexLe a b = true) (serve_index_files t) := by
  constructor
  · have hc : collect [] t =
        ((walkAll [] t).filter isMdNotHidden).map joinComponents :=
      collect_eq_filter_walk t [] h rfl rfl
    unfold serve_index_files
    rw [hc]
  · exact List.sorted_mergeSort (fun a b c => lexLe_trans a b c)
      (fun a b => lexLe_total a b) (collect [] t)

theorem lister_eq_sorted_filtered_walk_witness :
    wfTree (Tree.fileNode (("a.md").data)
      (Tree.dirNode ((".hidden").data)
        (Tree.fileNode (("b.md").data) Tree.leaf) Tree.leaf)) = true ∧
    (serve_index_files (Tree.fileNode (("a.md").data)
        (Tree.dirNode ((".hidden").data)
          (Tree.fileNode (("b.md").data) Tree.leaf) Tree.leaf)) =
      (((walkAll [] (Tree.fileNode (("a.md").data)
          (Tree.dirNode ((".hidden").data)
            (Tree.fileNode (("b.md").data) Tree.leaf) Tree.leaf))).filter
          isMdNotHidden).map joinComponents).mergeSort lexLe ∧
     List.Pairwise (fun a b => lexLe a b = true)
       (serve_index_files (Tree.fileNode (("a.md").data)
         (Tree.dirNode ((".hidden").data)
           (Tree.fileNode (("b.md").data) Tree.leaf) Tree.leaf)))) :=
  ⟨by decide,
   lister_eq_sorted_filtered_walk
     (Tree.fileNode (("a.md").data)
       (Tree.dirNode ((".hidden").data)
         (Tree.fileNode (("b.md").data) Tree.leaf) Tree.leaf))
     (by decide)⟩

end MdServer
